import Mathlib

/-
  Verification development for the FFmpeg-based video processing engine
  (backend/services/video_engine.py).

  Shallow embedding conventions:
  * Python floats are modelled as rationals.  The only arithmetic the
    claims depend on (division and multiplication by 2, comparison with
    2.0 and 0.5, reciprocal) is exact on binary floating point numbers
    in the normal range, so the rational model is faithful there.
    Because the library's `Rat.add/sub/mul/inv` are irreducible, the
    in-definition arithmetic is written with the kernel-evaluable
    `Rat.divInt`; the lemmas `halve_eq`, `double_eq`, `recip_eq` and
    `half_eq` identify these with ordinary division/multiplication.
  * The external world (filesystem, subprocess results, ffprobe output)
    is modelled by explicit environment records; the functions under
    test are pure functions of those records.
  * The two unbounded `while` loops in the speed decomposition are
    modelled with an explicit fuel parameter; a `none` result means the
    loop did not finish within the given fuel (for every fuel: genuine
    divergence of the Python loop).
  * Python exceptions escaping `subprocess.run` are modelled by the
    `execRaises` flag of the environment records.
-/

namespace VideoEngine

/- current /= 2.0, written so the kernel can evaluate it. -/
def halve (c : ℚ) : ℚ := Rat.divInt c.num (2 * c.den)

/- current *= 2.0, written so the kernel can evaluate it. -/
def double (c : ℚ) : ℚ := Rat.divInt (2 * c.num) c.den

/- 1/factor, written so the kernel can evaluate it.  (In Python a zero
   factor raises ZeroDivisionError here; the claims never need that
   case.) -/
def recip (q : ℚ) : ℚ := Rat.divInt q.den q.num

/- The float literal 0.5. -/
def half : ℚ := mkRat 1 2

theorem halve_eq (c : ℚ) : halve c = c / 2 := by
  rw [halve, Rat.divInt_eq_div]
  push_cast
  rw [mul_comm, ← div_div, Rat.num_div_den]

theorem double_eq (c : ℚ) : double c = 2 * c := by
  rw [double, Rat.divInt_eq_div]
  push_cast
  rw [mul_div_assoc, Rat.num_div_den]

theorem recip_eq (q : ℚ) : recip q = 1 / q := by
  rcases eq_or_ne q 0 with h | h
  · subst h
    rw [recip]
    norm_num
  · rw [recip, Rat.divInt_eq_div, one_div, eq_comm, inv_eq_iff_eq_inv, eq_comm, inv_div]
    push_cast
    exact Rat.num_div_den q

theorem half_eq : half = 1 / 2 := by
  rw [half, Rat.mkRat_eq_div]
  norm_num

/- Decimal digits of the fraction num/den (0 ≤ num < den), at most `n`
   digits, stopping early when the remainder is 0.  Part of the model of
   Python float-to-string formatting. -/
def fracDigits : ℕ → ℕ → ℕ → List Char
  | 0, _, _ => []
  | n + 1, num, den =>
    if num = 0 then []
    else Char.ofNat (48 + num * 10 / den) :: fracDigits n (num * 10 % den) den

/- Model of Python str()/f-string formatting of a float value: sign,
   integer part, a dot, then the fractional digits ("1.0" for 1, "0.5"
   for 1/2, "1.2" for 6/5).  The 17-digit cap stands in for Python's
   shortest-roundtrip float repr; exact for the values the claims use. -/
def decRepr (q : ℚ) : String :=
  let ds := fracDigits 17 (q.num.natAbs % q.den) q.den
  (if q < 0 then "-" else "") ++ toString (q.num.natAbs / q.den) ++ "." ++
    (if ds.isEmpty then "0" else String.mk ds)

/- Model of Python ",".join(...). -/
def joinComma : List String → String
  | [] => ""
  | [s] => s
  | s :: rest => s ++ "," ++ joinComma rest

/- Does the second list start with the first?  Model of str.startswith,
   written so the kernel can evaluate it (the library String.startsWith
   does not reduce). -/
def listStarts : List Char → List Char → Bool
  | [], _ => true
  | _ :: _, [] => false
  | p :: ps, c :: cs => if p = c then listStarts ps cs else false

/- s.startswith(pre). -/
def strStarts (s pre : String) : Bool := listStarts pre.data s.data

/- Left-to-right replacement of non-overlapping occurrences, with fuel
   (always run with fuel = length of the list, which suffices). -/
def replaceList (old new : List Char) : ℕ → List Char → List Char
  | _, [] => []
  | 0, s => s
  | n + 1, c :: cs =>
    if listStarts old (c :: cs) = true ∧ old ≠ [] then
      new ++ replaceList old new n (List.drop old.length (c :: cs))
    else c :: replaceList old new n cs

/- s.replace(old, new), written so the kernel can evaluate it. -/
def pyReplace (s old new : String) : String :=
  String.mk (replaceList old.data new.data s.data.length s.data)

/- Model of os.path.join for two components. -/
def pathJoin (a b : String) : String :=
  if strStarts b "/" then b else a ++ "/" ++ b

/- TEMP_DIR = os.path.join(os.path.dirname(__file__), "..", "temp_storage") -/
def TEMP_DIR : String := "backend/services/../temp_storage"

/- Value of an action parameter: the JSON payload carries numbers or
   strings.  (`float()` applied to a non-numeric string and `.lower()`
   on a non-string would raise in Python; the claims only use well-typed
   parameters, which this embedding models.) -/
inductive PValue
  | num (q : ℚ)
  | str (s : String)
deriving DecidableEq

/- An action dict with a 'tool' and 'params'. -/
structure Action where
  tool : String
  params : List (String × PValue)
deriving DecidableEq

/- params.get(key, default) followed by float(): numeric case. -/
def getParamNum (a : Action) (k : String) (d : ℚ) : ℚ :=
  match a.params.lookup k with
  | some (PValue.num q) => q
  | _ => d

/- params.get(key, default): string case. -/
def getParamStr (a : Action) (k : String) (d : String) : String :=
  match a.params.lookup k with
  | some (PValue.str s) => s
  | _ => d

/- Model of Python str.lower(), written so the kernel can evaluate it
   (the library String.toLower does not reduce). -/
def strLower (s : String) : String := String.mk (s.data.map Char.toLower)

/- The tool names the action loop dispatches on. -/
def knownTools : List String := ["trim", "speed", "filter", "adjust", "audio_cleanup"]

/- First speed loop: while current > 2.0, emit a 2.0 stage and halve. -/
def loopUp : ℕ → ℚ → Option (List ℚ × ℚ)
  | 0, c => if 2 < c then none else some ([], c)
  | n + 1, c =>
    if 2 < c then (loopUp n (halve c)).map (fun p => (2 :: p.1, p.2))
    else some ([], c)

/- Second speed loop: while current < 0.5, emit a 0.5 stage and double. -/
def loopDown : ℕ → ℚ → Option (List ℚ × ℚ)
  | 0, c => if c < half then none else some ([], c)
  | n + 1, c =>
    if c < half then (loopDown n (double c)).map (fun p => (half :: p.1, p.2))
    else some ([], c)

/- The full atempo stage decomposition of a speed factor: both loops,
   then the final in-range stage.  `none` = the loops never finish. -/
def atempoChain (n₁ n₂ : ℕ) (f : ℚ) : Option (List ℚ) :=
  match loopUp n₁ f with
  | none => none
  | some p₁ =>
    match loopDown n₂ p₁.2 with
    | none => none
    | some p₂ => some (p₁.1 ++ p₂.1 ++ [p₂.2])

/- The sepia colour matrix literal from the source. -/
def sepiaExpr : String :=
  "colorchannelmixer=rr=0.393:rg=0.769:rb=0.189:gr=0.349:gg=0.686:gb=0.168:br=0.272:bg=0.534:bb=0.131"

/- One iteration of the `for action in actions` loop of process_video:
   given the accumulated (video_filters, audio_filters) state, process
   one action.  `none` models divergence of the atempo while loops. -/
def compileStep (n₁ n₂ : ℕ) (ha : Bool) (st : List String × List String)
    (a : Action) : Option (List String × List String) :=
  if a.tool = "trim" then some st
  else if a.tool = "speed" then
    let factor := getParamNum a "factor" 1
    if factor = 1 then some st
    else
      let vf := st.1 ++ ["setpts=" ++ decRepr (recip factor) ++ "*PTS"]
      if ha then
        match atempoChain n₁ n₂ factor with
        | none => none
        | some ch => some (vf, st.2 ++ ch.map (fun q => "atempo=" ++ decRepr q))
      else some (vf, st.2)
  else if a.tool = "filter" then
    let ft := strLower (getParamStr a "type" "")
    if ft = "grayscale" then some (st.1 ++ ["hue=s=0"], st.2)
    else if ft = "sepia" then some (st.1 ++ [sepiaExpr], st.2)
    else if ft = "invert" then some (st.1 ++ ["negate"], st.2)
    else if ft = "warm" then some (st.1 ++ ["eq=saturation=1.2:contrast=1.1"], st.2)
    else some st
  else if a.tool = "adjust" then
    some (st.1 ++
      ["eq=contrast=" ++ decRepr (getParamNum a "contrast" 1) ++
       ":brightness=" ++ decRepr (getParamNum a "brightness" 0) ++
       ":saturation=" ++ decRepr (getParamNum a "saturation" 1)], st.2)
  else if a.tool = "audio_cleanup" then
    if ha then some (st.1, st.2 ++ ["silenceremove=1:0:-50dB", "loudnorm"])
    else some st
  else some st

/- The action loop itself, threading the filter-list state. -/
def compileList (n₁ n₂ : ℕ) (ha : Bool) :
    List String × List String → List Action → Option (List String × List String)
  | st, [] => some st
  | st, a :: rest =>
    match compileStep n₁ n₂ ha st a with
    | none => none
    | some st2 => compileList n₁ n₂ ha st2 rest

/- compile(actions, hasAudio): the filter chains built by process_video
   before the command is assembled. -/
def compile (n₁ n₂ : ℕ) (actions : List Action) (ha : Bool) :
    Option (List String × List String) :=
  compileList n₁ n₂ ha ([], []) actions

/- What a single action contributes to the two chains (the step run on
   the empty state). -/
def actionContrib (n₁ n₂ : ℕ) (ha : Bool) (a : Action) :
    Option (List String × List String) :=
  compileStep n₁ n₂ ha ([], []) a

/- Per-action contributions of a whole list, kept separate. -/
def contribs (n₁ n₂ : ℕ) (ha : Bool) : List Action → Option (List (List String × List String))
  | [] => some []
  | a :: rest =>
    match actionContrib n₁ n₂ ha a, contribs n₁ n₂ ha rest with
    | some c, some cs => some (c :: cs)
    | _, _ => none

/- The ffmpeg argument vector assembled by process_video (lines 144-173
   of the source): input, optional -ss / -t, -vf, -af / -an, codecs. -/
def buildCmd (inputPath outputPath : String) (clipStart : ℚ) (clipDuration : Option ℚ)
    (vf af : List String) (ha : Bool) : List String :=
  ["ffmpeg", "-y", "-i", inputPath]
  ++ (if 0 < clipStart then ["-ss", decRepr clipStart] else [])
  ++ (match clipDuration with
      | some d => if d = 0 then [] else ["-t", decRepr d]
      | none => [])
  ++ (if vf = [] then [] else ["-vf", joinComma vf])
  ++ (if af ≠ [] ∧ ha = true then ["-af", joinComma af]
      else if ha = false then ["-an"] else [])
  ++ ["-c:v", "libx264", "-preset", "fast", "-crf", "23",
      "-c:a", if ha then "aac" else "copy", outputPath]

/- The parameters the code passes to subprocess.run: positional argv,
   capture_output=True, text=True, and no timeout keyword at all
   (subprocess.run defaults the timeout to None). -/
structure SubprocessArgs where
  argv : List String
  captureOutput : Bool
  text : Bool
  timeout : Option ℚ
deriving DecidableEq

/- subprocess.run(cmd, capture_output=True, text=True) as written in
   both process_video and stitch_videos. -/
def subprocessRun (argv : List String) : SubprocessArgs :=
  ⟨argv, true, true, none⟩

/- Trace of external invocations a call performs. -/
inductive Call
  | probeAudio (path : String)
  | runFfmpeg (args : SubprocessArgs)
  | probeDuration (path : String)
deriving DecidableEq

/- The success payload: {"path": ..., "duration": ...}. -/
structure RenderResult where
  path : String
  duration : ℚ
deriving DecidableEq

/- Observable outcome of process_video: a returned dict, a returned
   None, or divergence of the action loop. -/
inductive PVOutcome
  | diverge
  | fail
  | success (r : RenderResult)
deriving DecidableEq

/- Environment for one process_video call: what the filesystem and the
   external processes do.  outputExists / outputSize describe the
   output file after ffmpeg ran (the code never reads them). -/
structure Env where
  inputExists : Bool
  hasAudio : Bool
  execRaises : Bool
  execReturncode : Int
  outputExists : Bool
  outputSize : ℕ
  probedOutputDuration : ℚ
deriving DecidableEq

/- process_video(input_path, actions, clip_start, clip_duration),
   returning its outcome and the trace of external invocations. -/
def process_video (env : Env) (n₁ n₂ : ℕ) (inputPath : String) (actions : List Action)
    (clipStart : ℚ) (clipDuration : Option ℚ) (outputPath : String) :
    PVOutcome × List Call :=
  if env.inputExists = false then (PVOutcome.fail, [])
  else
    match compile n₁ n₂ actions env.hasAudio with
    | none => (PVOutcome.diverge, [Call.probeAudio inputPath])
    | some vfaf =>
      let cmd := buildCmd inputPath outputPath clipStart clipDuration vfaf.1 vfaf.2 env.hasAudio
      let sub := subprocessRun cmd
      if env.execRaises then (PVOutcome.fail, [Call.probeAudio inputPath, Call.runFfmpeg sub])
      else if env.execReturncode ≠ 0 then
        (PVOutcome.fail, [Call.probeAudio inputPath, Call.runFfmpeg sub])
      else
        (PVOutcome.success ⟨outputPath, env.probedOutputDuration⟩,
         [Call.probeAudio inputPath, Call.runFfmpeg sub, Call.probeDuration outputPath])

/- The URL base stripped by stitch_videos. -/
def filesBase : String := "http://localhost:8000/files/"

/- Resolution of a clip's url to a local path (lines 216-221). -/
def resolveClip (url : String) : String :=
  if strStarts url filesBase then pathJoin TEMP_DIR (pyReplace url filesBase "")
  else url

/- One manifest line: f"file '{filepath}'\n". -/
def manifestLine (fp : String) : String := "file \x27" ++ fp ++ "\x27\n"

/- The manifest-writing loop: a line per clip whose resolved path
   exists, in clip order. -/
def buildManifest (existing : List String) (clips : List String) : List String :=
  clips.foldl
    (fun acc url =>
      let fp := resolveClip url
      if fp ∈ existing then acc ++ [manifestLine fp] else acc)
    []

/- Environment for one stitch_videos call. -/
structure StitchEnv where
  existingPaths : List String
  execRaises : Bool
  execReturncode : Int
  outputExists : Bool
  outputSize : ℕ
deriving DecidableEq

/- Observable effects of one stitch_videos call. -/
structure StitchRun where
  result : Option String
  manifestLines : List String
  manifestCreated : Bool
  manifestRemoved : Bool
  calls : List Call
deriving DecidableEq

/- stitch_videos(clips): manifest write, concat invocation, manifest
   removal (which the code performs after subprocess.run returns and
   before the returncode check — so not on the exception path). -/
def stitch_videos (env : StitchEnv) (clips : List String)
    (outputPath manifestPath : String) : StitchRun :=
  if clips = [] then ⟨none, [], false, false, []⟩
  else
    let lines := buildManifest env.existingPaths clips
    let cmd := ["ffmpeg", "-y", "-f", "concat", "-safe", "0", "-i", manifestPath,
                "-c", "copy", outputPath]
    let sub := subprocessRun cmd
    if env.execRaises then ⟨none, lines, true, false, [Call.runFfmpeg sub]⟩
    else if env.execReturncode ≠ 0 then ⟨none, lines, true, true, [Call.runFfmpeg sub]⟩
    else ⟨some outputPath, lines, true, true, [Call.runFfmpeg sub]⟩

theorem loopUp_spec : ∀ (n : ℕ) (c : ℚ) (l : List ℚ) (r : ℚ),
    loopUp n c = some (l, r) →
    (∀ x ∈ l, x = 2) ∧ l.prod * r = c ∧ r ≤ 2 ∧ (0 < c → 0 < r) ∧ min c 1 ≤ r := by
  intro n
  induction n with
  | zero =>
    intro c l r h
    simp only [loopUp] at h
    split at h
    · exact absurd h (by simp)
    · rename_i hc
      obtain ⟨rfl, rfl⟩ : ([] : List ℚ) = l ∧ c = r := by simpa using h
      exact ⟨by simp, by simp, le_of_not_lt hc, fun h0 => h0, min_le_left ..⟩
  | succ n ih =>
    intro c l r h
    simp only [loopUp] at h
    split at h
    · rename_i hc
      rw [Option.map_eq_some'] at h
      obtain ⟨⟨l1, r1⟩, hrec, heq⟩ := h
      obtain ⟨rfl, rfl⟩ : 2 :: l1 = l ∧ r1 = r := by simpa using heq
      obtain ⟨hall, hprod, hle, hpos, hmin⟩ := ih (halve c) l1 r1 hrec
      rw [halve_eq] at hprod hpos hmin
      refine ⟨?_, ?_, hle, ?_, ?_⟩
      · intro x hx
        rcases List.mem_cons.mp hx with rfl | hx
        · rfl
        · exact hall x hx
      · rw [List.prod_cons, mul_assoc, hprod]
        ring
      · intro h0
        exact hpos (by linarith)
      · have h1 : min (c / 2) 1 = 1 := min_eq_right (by linarith)
        calc min c 1 ≤ 1 := min_le_right ..
          _ ≤ r1 := h1 ▸ hmin
    · rename_i hc
      obtain ⟨rfl, rfl⟩ : ([] : List ℚ) = l ∧ c = r := by simpa using h
      exact ⟨by simp, by simp, le_of_not_lt hc, fun h0 => h0, min_le_left ..⟩

theorem loopDown_spec : ∀ (n : ℕ) (c : ℚ) (l : List ℚ) (r : ℚ),
    loopDown n c = some (l, r) →
    (∀ x ∈ l, x = half) ∧ l.prod * r = c ∧ half ≤ r ∧ (c ≤ 2 → r ≤ 2) := by
  intro n
  induction n with
  | zero =>
    intro c l r h
    simp only [loopDown] at h
    split at h
    · exact absurd h (by simp)
    · rename_i hc
      obtain ⟨rfl, rfl⟩ : ([] : List ℚ) = l ∧ c = r := by simpa using h
      exact ⟨by simp, by simp, le_of_not_lt hc, fun h0 => h0⟩
  | succ n ih =>
    intro c l r h
    simp only [loopDown] at h
    split at h
    · rename_i hc
      rw [half_eq] at hc
      rw [Option.map_eq_some'] at h
      obtain ⟨⟨l1, r1⟩, hrec, heq⟩ := h
      obtain ⟨rfl, rfl⟩ : half :: l1 = l ∧ r1 = r := by simpa using heq
      obtain ⟨hall, hprod, hge, hle⟩ := ih (double c) l1 r1 hrec
      rw [double_eq] at hprod hle
      refine ⟨?_, ?_, hge, ?_⟩
      · intro x hx
        rcases List.mem_cons.mp hx with rfl | hx
        · rfl
        · exact hall x hx
      · rw [List.prod_cons, half_eq, mul_assoc, hprod]
        ring
      · intro h0
        exact hle (by linarith)
    · rename_i hc
      obtain ⟨rfl, rfl⟩ : ([] : List ℚ) = l ∧ c = r := by simpa using h
      exact ⟨by simp, by simp, le_of_not_lt hc, fun h0 => h0⟩

theorem loopUp_total : ∀ (n : ℕ) (c : ℚ), c ≤ 2 * 2 ^ n → (loopUp n c).isSome = true := by
  intro n
  induction n with
  | zero =>
    intro c hc
    rw [loopUp, if_neg (not_lt.mpr (by simpa using hc))]
    rfl
  | succ n ih =>
    intro c hc
    rw [loopUp]
    split
    · rename_i h2
      have hrec : halve c ≤ 2 * 2 ^ n := by
        rw [halve_eq, pow_succ] at *
        linarith
      obtain ⟨p, hp⟩ := Option.isSome_iff_exists.mp (ih (halve c) hrec)
      rw [hp]
      rfl
    · rfl

theorem loopDown_total : ∀ (n : ℕ) (c : ℚ), 1 ≤ 2 * c * 2 ^ n → (loopDown n c).isSome = true := by
  intro n
  induction n with
  | zero =>
    intro c hc
    rw [loopDown, if_neg (not_lt.mpr (by rw [half_eq]; simp at hc; linarith))]
    rfl
  | succ n ih =>
    intro c hc
    rw [loopDown]
    split
    · have hrec : 1 ≤ 2 * double c * 2 ^ n := by
        rw [double_eq]
        calc (1 : ℚ) ≤ 2 * c * 2 ^ (n + 1) := hc
          _ = 2 * (2 * c) * 2 ^ n := by ring
      obtain ⟨p, hp⟩ := Option.isSome_iff_exists.mp (ih (double c) hrec)
      rw [hp]
      rfl
    · rfl

theorem loopUp_of_le (n : ℕ) (c : ℚ) (h : c ≤ 2) : loopUp n c = some ([], c) := by
  cases n <;> rw [loopUp, if_neg (not_lt.mpr h)]

theorem loopDown_nonpos : ∀ (n : ℕ) (c : ℚ), c ≤ 0 → loopDown n c = none := by
  intro n
  induction n with
  | zero =>
    intro c hc
    rw [loopDown, if_pos (by rw [half_eq]; linarith)]
  | succ n ih =>
    intro c hc
    rw [loopDown, if_pos (by rw [half_eq]; linarith)]
    rw [ih (double c) (by rw [double_eq]; linarith)]
    rfl

/-- C1: whenever the speed decomposition emitted by process_video finishes
and yields a chain of atempo stages for factor `f`, every stage value lies
in the interval [0.5, 2.0] and the product of all stages equals `f`
exactly — in particular within relative tolerance 1e-6. -/
theorem C1_atempo_stages (n₁ n₂ : ℕ) (f : ℚ) (chain : List ℚ)
    (h : atempoChain n₁ n₂ f = some chain) :
    (∀ s ∈ chain, 1 / 2 ≤ s ∧ s ≤ 2) ∧ chain.prod = f ∧
      |chain.prod - f| ≤ |f| / 1000000 := by
  rw [atempoChain] at h
  split at h
  · exact absurd h (by simp)
  · rename_i p₁ h₁
    split at h
    · exact absurd h (by simp)
    · rename_i p₂ h₂
      obtain rfl : p₁.1 ++ p₂.1 ++ [p₂.2] = chain := by simpa using h
      obtain ⟨hall₁, hprod₁, hle₁, _, _⟩ := loopUp_spec n₁ f p₁.1 p₁.2 h₁
      obtain ⟨hall₂, hprod₂, hge₂, hle₂⟩ := loopDown_spec n₂ p₁.2 p₂.1 p₂.2 h₂
      rw [half_eq] at hall₂ hge₂
      have hprod : (p₁.1 ++ p₂.1 ++ [p₂.2]).prod = f := by
        rw [List.prod_append, List.prod_append, List.prod_singleton, mul_assoc,
          hprod₂, hprod₁]
      refine ⟨?_, hprod, ?_⟩
      · intro s hs
        rcases List.mem_append.mp hs with hs | hs
        · rcases List.mem_append.mp hs with hs | hs
          · rw [hall₁ s hs]
            norm_num
          · rw [hall₂ s hs]
            norm_num
        · obtain rfl : s = p₂.2 := by simpa using hs
          exact ⟨hge₂, hle₂ hle₁⟩
      · rw [hprod]
        simp
        positivity

/-- C1 witness: the decomposition of factor 5 with fuel 3 is
[2.0, 2.0, 1.25]; all stages are in range and their product is 5. -/
theorem C1_witness :
    (∀ s ∈ ([2, 2, mkRat 5 4] : List ℚ), 1 / 2 ≤ s ∧ s ≤ 2) ∧
      ([2, 2, mkRat 5 4] : List ℚ).prod = 5 ∧
      |([2, 2, mkRat 5 4] : List ℚ).prod - 5| ≤ |(5 : ℚ)| / 1000000 :=
  C1_atempo_stages 3 3 5 [2, 2, mkRat 5 4] (by decide)

/-- C10: for every positive factor f the two atempo while-loops terminate
(explicit fuel f.num.toNat / f.den suffices), and positivity is required:
for every factor f ≤ 0 the loops diverge at every fuel. -/
theorem C10_loop_termination :
    (∀ f : ℚ, 0 < f → (atempoChain f.num.toNat f.den f).isSome = true) ∧
    (∀ f : ℚ, f ≤ 0 → ∀ n₁ n₂ : ℕ, atempoChain n₁ n₂ f = none) := by
  constructor
  · intro f hf
    have hnum : (0 : ℤ) < f.num := Rat.num_pos.mpr hf
    have hden : (0 : ℚ) < (f.den : ℚ) := by
      exact_mod_cast Nat.pos_of_ne_zero f.den_nz
    have hden1 : (1 : ℚ) ≤ (f.den : ℚ) := by
      exact_mod_cast Nat.pos_of_ne_zero f.den_nz
    have hcast : ((f.num.toNat : ℚ)) = ((f.num : ℚ)) := by
      exact_mod_cast congrArg (fun z : ℤ => (z : ℚ)) (Int.toNat_of_nonneg hnum.le)
    have hfle : f ≤ 2 * 2 ^ f.num.toNat := by
      have h1 : f ≤ (f.num : ℚ) := by
        conv_lhs => rw [← Rat.num_div_den f]
        exact div_le_self (by positivity) hden1
      have h2 : (f.num.toNat : ℚ) < 2 ^ f.num.toNat := by
        have := Nat.lt_two_pow f.num.toNat
        exact_mod_cast this
      have h3 : (0 : ℚ) < 2 ^ f.num.toNat := by positivity
      rw [← hcast] at h1
      linarith
    obtain ⟨p₁, hp₁⟩ := Option.isSome_iff_exists.mp (loopUp_total f.num.toNat f hfle)
    obtain ⟨_, _, _, hpos, hmin⟩ := loopUp_spec f.num.toNat f p₁.1 p₁.2 hp₁
    have hr : 0 < p₁.2 := hpos hf
    have hnum1 : (1 : ℚ) ≤ (f.num : ℚ) := by exact_mod_cast hnum
    have hfd : (1 : ℚ) / f.den ≤ min f 1 := by
      apply le_min
      · conv_rhs => rw [← Rat.num_div_den f]
        exact (div_le_div_iff_of_pos_right hden).mpr hnum1
      · rw [div_le_one hden]
        exact hden1
    have h2 : (f.den : ℚ) < 2 ^ f.den := by
      have := Nat.lt_two_pow f.den
      exact_mod_cast this
    have h3 : (1 : ℚ) < 2 ^ f.den / f.den := (one_lt_div hden).mpr h2
    have h4 : (1 : ℚ) / f.den ≤ p₁.2 := le_trans hfd hmin
    have h5 : 2 * ((1 : ℚ) / f.den) * 2 ^ f.den ≤ 2 * p₁.2 * 2 ^ f.den := by
      have hp : (0 : ℚ) ≤ 2 ^ f.den := by positivity
      nlinarith
    have h6 : 2 * ((1 : ℚ) / f.den) * 2 ^ f.den = 2 * (2 ^ f.den / f.den) := by ring
    rw [h6] at h5
    have key : 1 ≤ 2 * p₁.2 * 2 ^ f.den := by linarith
    obtain ⟨p₂, hp₂⟩ := Option.isSome_iff_exists.mp (loopDown_total f.den p₁.2 key)
    simp [atempoChain, hp₁, hp₂]
  · intro f hf n₁ n₂
    simp [atempoChain, loopUp_of_le n₁ f (le_trans hf (by norm_num)),
      loopDown_nonpos n₂ f hf]

/-- C10 witness: factor 5 terminates within the stated fuel; factor -1
diverges at every fuel. -/
theorem C10_witness :
    (atempoChain (5 : ℚ).num.toNat (5 : ℚ).den 5).isSome = true ∧
      atempoChain 3 3 (-1) = none :=
  ⟨C10_loop_termination.1 5 (by norm_num), C10_loop_termination.2 (-1) (by norm_num) 3 3⟩

theorem compileStep_shift (n₁ n₂ : ℕ) (ha : Bool) (st : List String × List String)
    (a : Action) :
    compileStep n₁ n₂ ha st a =
      (actionContrib n₁ n₂ ha a).map (fun c => (st.1 ++ c.1, st.2 ++ c.2)) := by
  rcases st with ⟨v, w⟩
  simp only [compileStep, actionContrib]
  repeat' split <;> try simp_all

theorem compileList_eq_contribs (n₁ n₂ : ℕ) (ha : Bool) :
    ∀ (l : List Action) (st : List String × List String),
    compileList n₁ n₂ ha st l =
      (contribs n₁ n₂ ha l).map
        (fun cs => (st.1 ++ (cs.map Prod.fst).flatten, st.2 ++ (cs.map Prod.snd).flatten)) := by
  intro l
  induction l with
  | nil =>
    intro st
    simp [compileList, contribs]
  | cons a rest ih =>
    intro st
    rw [show compileList n₁ n₂ ha st (a :: rest) =
        (match compileStep n₁ n₂ ha st a with
         | none => none
         | some st2 => compileList n₁ n₂ ha st2 rest) from rfl]
    rw [compileStep_shift]
    cases hc : actionContrib n₁ n₂ ha a with
    | none => simp [contribs, hc]
    | some c =>
      simp only [hc, Option.map_some']
      rw [ih]
      cases hcs : contribs n₁ n₂ ha rest with
      | none => simp [contribs, hc, hcs]
      | some cs => simp [contribs, hc, hcs, List.append_assoc]

theorem compileStep_unknown (n₁ n₂ : ℕ) (ha : Bool) (st : List String × List String)
    (a : Action) (h : a.tool ∉ knownTools) :
    compileStep n₁ n₂ ha st a = some st := by
  simp only [knownTools, List.mem_cons, List.not_mem_nil, or_false, not_or] at h
  obtain ⟨h1, h2, h3, h4, h5⟩ := h
  rw [compileStep, if_neg h1, if_neg h2, if_neg h3, if_neg h4, if_neg h5]

theorem compileList_append (n₁ n₂ : ℕ) (ha : Bool) :
    ∀ (l₁ l₂ : List Action) (st : List String × List String),
    compileList n₁ n₂ ha st (l₁ ++ l₂) =
      match compileList n₁ n₂ ha st l₁ with
      | none => none
      | some st2 => compileList n₁ n₂ ha st2 l₂ := by
  intro l₁
  induction l₁ with
  | nil =>
    intro l₂ st
    simp [compileList]
  | cons a rest ih =>
    intro l₂ st
    rw [List.cons_append]
    simp only [compileList]
    cases compileStep n₁ n₂ ha st a with
    | none => rfl
    | some st2 => exact ih l₂ st2

/- Concrete actions used by the claims about compile. -/
def grayAction : Action := ⟨"filter", [("type", PValue.str "grayscale")]⟩

def adjustAction : Action := ⟨"adjust", [("contrast", PValue.num (mkRat 6 5))]⟩

def unknownAct : Action := ⟨"caption", []⟩

/-- C8: the filter chains compiled by the action loop are exactly the
per-action contributions flattened in encounter order (so no reordering
and no deduplication), and concretely [filter:grayscale, adjust:contrast=1.2]
compiles to ["hue=s=0", "eq=contrast=1.2:brightness=0.0:saturation=1.0"]
in that order with no audio filters. -/
theorem C8_order_preserved (n₁ n₂ : ℕ) (ha : Bool) (actions : List Action) :
    compile n₁ n₂ actions ha =
      (contribs n₁ n₂ ha actions).map
        (fun cs => ((cs.map Prod.fst).flatten, (cs.map Prod.snd).flatten)) ∧
    compile 1 1 [grayAction, adjustAction] ha =
      some (["hue=s=0", "eq=contrast=1.2:brightness=0.0:saturation=1.0"], []) := by
  constructor
  · rw [compile, compileList_eq_contribs]
    rfl
  · cases ha <;> decide

/-- C9: an action whose tool is not one of trim, speed, filter, adjust,
audio_cleanup contributes nothing: the compiled chains equal those of the
same action list with that action removed, and no error is raised. -/
theorem C9_unknown_tool (n₁ n₂ : ℕ) (ha : Bool) (pre post : List Action) (a : Action)
    (h : a.tool ∉ knownTools) :
    compile n₁ n₂ (pre ++ a :: post) ha = compile n₁ n₂ (pre ++ post) ha := by
  rw [compile, compile, compileList_append, compileList_append]
  cases compileList n₁ n₂ ha ([], []) pre with
  | none => rfl
  | some st => simp [compileList, compileStep_unknown n₁ n₂ ha st a h]

/-- C9 witness: inserting the unknown action caption between grayscale and
adjust leaves the compiled chains unchanged. -/
theorem C9_witness :
    compile 1 1 [grayAction, unknownAct, adjustAction] true =
      compile 1 1 [grayAction, adjustAction] true :=
  C9_unknown_tool 1 1 true [grayAction] [adjustAction] unknownAct (by decide)

theorem strDataAppend (a b : String) : (a ++ b).data = a.data ++ b.data := by
  rcases a with ⟨da⟩
  rcases b with ⟨db⟩
  rfl

/- A string whose first character exists and is not a dash: the shape of
   every video-filter expression the compiler can emit.  Such a string is
   never mistaken for the "-af" flag. -/
def headLetter (s : String) : Prop := s.data ≠ [] ∧ s.data.head? ≠ some (Char.ofNat 45)

instance headLetterDec (s : String) : Decidable (headLetter s) :=
  inferInstanceAs (Decidable (_ ∧ _))

theorem headLetter_extend (A B : String) (h : headLetter A) : headLetter (A ++ B) := by
  obtain ⟨h1, h2⟩ := h
  rcases hA : A.data with _ | ⟨c, t⟩
  · exact absurd hA h1
  · have hc : c ≠ Char.ofNat 45 := by
      rw [hA] at h2
      simpa using h2
    constructor
    · rw [strDataAppend, hA]
      simp
    · rw [strDataAppend, hA]
      simpa using hc

theorem joinComma_headLetter : ∀ (l : List String), l ≠ [] → (∀ s ∈ l, headLetter s) →
    headLetter (joinComma l)
  | [], h, _ => absurd rfl h
  | [s], _, hall => hall s (by simp)
  | s :: t :: r, _, hall =>
    headLetter_extend _ _ (headLetter_extend _ _ (hall s (by simp)))

theorem headLetter_ne_af (s : String) (h : headLetter s) : s ≠ "-af" := by
  intro hs
  subst hs
  exact h.2 (by decide)

theorem dot_mem_decRepr (q : ℚ) : Char.ofNat 46 ∈ (decRepr q).data := by
  simp only [decRepr, strDataAppend]
  simp [List.mem_append]

theorem decRepr_ne_af (q : ℚ) : decRepr q ≠ "-af" := by
  intro h
  have hd := dot_mem_decRepr q
  rw [h] at hd
  exact absurd hd (by decide)

theorem actionContrib_headLetter (n₁ n₂ : ℕ) (ha : Bool) (a : Action)
    (c : List String × List String) (h : actionContrib n₁ n₂ ha a = some c) :
    ∀ s ∈ c.1, headLetter s := by
  rw [actionContrib, compileStep] at h
  dsimp only at h
  repeat' split at h
  all_goals
    first
    | exact Option.noConfusion h
    | (obtain rfl := Option.some.inj h
       intro s hs
       try simp only [List.nil_append] at hs
       first
       | exact absurd hs (List.not_mem_nil s)
       | (obtain rfl := List.mem_singleton.mp hs
          first
          | decide
          | exact headLetter_extend _ _ (headLetter_extend _ _ (by decide))
          | exact headLetter_extend _ _ (headLetter_extend _ _ (headLetter_extend _ _
              (headLetter_extend _ _ (headLetter_extend _ _ (by decide)))))))

theorem compileList_headLetter (n₁ n₂ : ℕ) (ha : Bool) :
    ∀ (l : List Action) (st res : List String × List String),
    compileList n₁ n₂ ha st l = some res →
    (∀ s ∈ st.1, headLetter s) → ∀ s ∈ res.1, headLetter s := by
  intro l
  induction l with
  | nil =>
    intro st res h hst
    obtain rfl : st = res := by simpa [compileList] using h
    exact hst
  | cons a rest ih =>
    intro st res h hst
    rw [show compileList n₁ n₂ ha st (a :: rest) =
        (match compileStep n₁ n₂ ha st a with
         | none => none
         | some st2 => compileList n₁ n₂ ha st2 rest) from rfl] at h
    rw [compileStep_shift] at h
    cases hc : actionContrib n₁ n₂ ha a with
    | none =>
      rw [hc] at h
      exact absurd h (by simp)
    | some c =>
      simp only [hc, Option.map_some'] at h
      apply ih _ res h
      intro s hs
      rcases List.mem_append.mp hs with hs | hs
      · exact hst s hs
      · exact actionContrib_headLetter n₁ n₂ ha a c hc s hs

theorem actionContrib_false_some (n₁ n₂ : ℕ) (a : Action) :
    (actionContrib n₁ n₂ false a).isSome = true := by
  rw [actionContrib, compileStep]
  dsimp only
  repeat' split
  all_goals first | rfl | contradiction

theorem actionContrib_false_snd (n₁ n₂ : ℕ) (a : Action) (c : List String × List String)
    (h : actionContrib n₁ n₂ false a = some c) : c.2 = [] := by
  rw [actionContrib, compileStep] at h
  dsimp only at h
  repeat' split at h
  all_goals first
    | exact Option.noConfusion h
    | contradiction
    | (obtain rfl := Option.some.inj h
       rfl)

theorem compileStep_false (n₁ n₂ : ℕ) (st : List String × List String) (a : Action) :
    ∃ v0, compileStep n₁ n₂ false st a = some (st.1 ++ v0, st.2) := by
  obtain ⟨c, hc⟩ := Option.isSome_iff_exists.mp (actionContrib_false_some n₁ n₂ a)
  have h2 := actionContrib_false_snd n₁ n₂ a c hc
  refine ⟨c.1, ?_⟩
  rw [compileStep_shift, hc]
  simp [h2]

theorem compileList_false (n₁ n₂ : ℕ) :
    ∀ (l : List Action) (st : List String × List String),
    ∃ v, compileList n₁ n₂ false st l = some (st.1 ++ v, st.2) := by
  intro l
  induction l with
  | nil =>
    intro st
    exact ⟨[], by simp [compileList]⟩
  | cons a rest ih =>
    intro st
    obtain ⟨v0, hv0⟩ := compileStep_false n₁ n₂ st a
    obtain ⟨v1, hv1⟩ := ih (st.1 ++ v0, st.2)
    refine ⟨v0 ++ v1, ?_⟩
    rw [show compileList n₁ n₂ false st (a :: rest) =
        (match compileStep n₁ n₂ false st a with
         | none => none
         | some st2 => compileList n₁ n₂ false st2 rest) from rfl, hv0]
    simpa [List.append_assoc] using hv1

theorem ssChunk_clean (cs : ℚ) : "-af" ∉ (if 0 < cs then ["-ss", decRepr cs] else []) := by
  split
  · simp [(decRepr_ne_af cs).symm]
  · simp

theorem tChunk_clean (cd : Option ℚ) :
    "-af" ∉ (match cd with
             | some d => if d = 0 then [] else ["-t", decRepr d]
             | none => ([] : List String)) := by
  rcases cd with _ | d
  · simp
  · show "-af" ∉ (if d = 0 then [] else ["-t", decRepr d])
    split
    · simp
    · simp [(decRepr_ne_af d).symm]

theorem vfChunk_clean (vf : List String) (h : ∀ s ∈ vf, headLetter s) :
    "-af" ∉ (if vf = [] then [] else ["-vf", joinComma vf]) := by
  split
  · simp
  · rename_i hne
    simp [Ne.symm (headLetter_ne_af (joinComma vf) (joinComma_headLetter vf hne h))]

/-- C4: compiling any action list against hasAudio = false always succeeds,
produces an empty audioFilters chain, and the assembled ffmpeg command
carries no "-af" flag (the hypotheses exclude input/output paths that are
themselves literally named "-af", which would appear in the argv as data,
not as a flag). -/
theorem C4_no_audio (n₁ n₂ : ℕ) (actions : List Action) (ip op : String) (cs : ℚ)
    (cd : Option ℚ) (hip : ip ≠ "-af") (hop : op ≠ "-af") :
    (compile n₁ n₂ actions false).isSome = true ∧
    ∀ vf af, compile n₁ n₂ actions false = some (vf, af) →
      af = [] ∧ "-af" ∉ buildCmd ip op cs cd vf af false := by
  obtain ⟨v, hv⟩ := compileList_false n₁ n₂ actions ([], [])
  constructor
  · rw [compile, hv]
    rfl
  · intro vf af h
    obtain ⟨h1, h2⟩ : ([] : List String) ++ v = vf ∧ ([] : List String) = af := by
      have := (hv.symm.trans h)
      simpa using this
    subst h2
    refine ⟨rfl, ?_⟩
    have hhl : ∀ s ∈ vf, headLetter s :=
      compileList_headLetter n₁ n₂ false actions ([], []) (vf, []) h (by simp)
    intro hmem
    rw [buildCmd.eq_def] at hmem
    simp only [List.mem_append] at hmem
    rcases hmem with ((((hm | hm) | hm) | hm) | hm) | hm
    · simp [Ne.symm hip] at hm
    · exact ssChunk_clean cs hm
    · exact tChunk_clean cd hm
    · exact vfChunk_clean vf hhl hm
    · simp at hm
    · simp [Ne.symm hop] at hm

/- Concrete actions for the C4 witness. -/
def speedAct2 : Action := ⟨"speed", [("factor", PValue.num 2)]⟩

def cleanupAct : Action := ⟨"audio_cleanup", []⟩

/-- C4 witness: a speed action plus an audio_cleanup action compiled with
hasAudio = false yield only the video filter and an empty audio chain, and
the assembled command has no "-af" flag. -/
theorem C4_witness :
    compile 2 2 [speedAct2, cleanupAct] false = some (["setpts=0.5*PTS"], []) ∧
    "-af" ∉ buildCmd "in.mp4" "out.mp4" 0 none ["setpts=0.5*PTS"] [] false := by
  constructor
  · decide
  · exact ((C4_no_audio 2 2 [speedAct2, cleanupAct] "in.mp4" "out.mp4" 0 none
      (by decide) (by decide)).2 ["setpts=0.5*PTS"] [] (by decide)).2

theorem buildManifest_eq (existing clips : List String) :
    buildManifest existing clips =
      ((clips.map resolveClip).filter (fun p => decide (p ∈ existing))).map manifestLine := by
  rw [buildManifest]
  suffices h : ∀ (cl acc : List String),
      cl.foldl
        (fun acc url =>
          let fp := resolveClip url
          if fp ∈ existing then acc ++ [manifestLine fp] else acc)
        acc =
      acc ++ ((cl.map resolveClip).filter (fun p => decide (p ∈ existing))).map manifestLine by
    simpa using h clips []
  intro cl
  induction cl with
  | nil =>
    intro acc
    simp
  | cons u rest ih =>
    intro acc
    rw [List.foldl_cons]
    dsimp only
    split
    · rename_i hmem
      rw [ih]
      simp [List.filter_cons, hmem, List.append_assoc]
    · rename_i hmem
      rw [ih]
      simp [List.filter_cons, hmem]

/- Concrete environments used by the witnesses and counterexamples. -/
def envOk : Env := ⟨true, false, false, 0, true, 100, 5⟩

def envNoOutput : Env := ⟨true, false, false, 0, false, 0, 0⟩

def envBadExit : Env := ⟨true, false, false, 1, false, 0, 0⟩

def envMissing : Env := ⟨false, false, false, 0, false, 0, 0⟩

def senvOk : StitchEnv := ⟨["a.mp4", "c.mp4"], false, 0, true, 100⟩

def senvRaise : StitchEnv := ⟨["a.mp4"], true, 0, false, 0⟩

def senvBadExit : StitchEnv := ⟨["a.mp4"], false, 1, false, 0⟩

/-- C2 counterexample: a run whose external process exits 0 but whose
output file does not exist (size 0) is still returned as a success
carrying the output path — the code never checks the output file. -/
theorem C2_counterexample :
    envNoOutput.outputExists = false ∧ envNoOutput.outputSize = 0 ∧
      envNoOutput.execReturncode = 0 ∧
      (process_video envNoOutput 1 1 "in.mp4" [] 0 none "out.mp4").1 =
        PVOutcome.success ⟨"out.mp4", 0⟩ :=
  ⟨rfl, rfl, rfl, by decide⟩

/-- C2 amended: a non-zero exit code (or a raised exception) always makes
process_video and stitch_videos return failure, never success; but neither
function inspects the output file. -/
theorem C2_exit_code_failure (env : Env) (n₁ n₂ : ℕ) (ip : String) (acts : List Action)
    (cs : ℚ) (cd : Option ℚ) (op : String) (senv : StitchEnv) (clips : List String)
    (sop smp : String) (r : RenderResult)
    (h : env.execRaises = true ∨ env.execReturncode ≠ 0)
    (hs : senv.execRaises = true ∨ senv.execReturncode ≠ 0) :
    (process_video env n₁ n₂ ip acts cs cd op).1 ≠ PVOutcome.success r ∧
    (stitch_videos senv clips sop smp).result = none := by
  constructor
  · intro hsucc
    unfold process_video at hsucc
    dsimp only at hsucc
    repeat' split at hsucc
    all_goals simp_all
  · unfold stitch_videos
    dsimp only
    repeat' split
    all_goals simp_all

/-- C2 witness: with exit code 1 both calls fail. -/
theorem C2_witness :
    (process_video envBadExit 1 1 "in.mp4" [] 0 none "out.mp4").1 ≠
        PVOutcome.success ⟨"out.mp4", 0⟩ ∧
      (stitch_videos senvBadExit ["a.mp4"] "out.mp4" "c.txt").result = none :=
  C2_exit_code_failure envBadExit 1 1 "in.mp4" [] 0 none "out.mp4" senvBadExit ["a.mp4"]
    "out.mp4" "c.txt" ⟨"out.mp4", 0⟩ (Or.inr (by decide)) (Or.inr (by decide))

/-- C3 counterexample: the ffmpeg invocation actually made by a
process_video run passes timeout = none — no wall-clock bound at all. -/
theorem C3_counterexample :
    (subprocessRun (buildCmd "in.mp4" "out.mp4" 0 none [] [] false)).timeout = none ∧
      Call.runFfmpeg (subprocessRun (buildCmd "in.mp4" "out.mp4" 0 none [] [] false)) ∈
        (process_video envOk 1 1 "in.mp4" [] 0 none "out.mp4").2 :=
  ⟨rfl, by decide⟩

/-- C3 amended: every subprocess invocation recorded in a process_video or
stitch_videos trace carries timeout = none (unbounded); a raised exception,
not a timeout, is the only way an invocation aborts, and it yields None. -/
theorem C3_no_timeout (s : SubprocessArgs) (env : Env) (n₁ n₂ : ℕ) (ip : String)
    (acts : List Action) (cs : ℚ) (cd : Option ℚ) (op : String)
    (senv : StitchEnv) (clips : List String) (sop smp : String) :
    (Call.runFfmpeg s ∈ (process_video env n₁ n₂ ip acts cs cd op).2 → s.timeout = none) ∧
    (Call.runFfmpeg s ∈ (stitch_videos senv clips sop smp).calls → s.timeout = none) := by
  constructor
  · intro hmem
    unfold process_video at hmem
    dsimp only at hmem
    repeat' split at hmem
    all_goals simp_all [subprocessRun]
  · intro hmem
    unfold stitch_videos at hmem
    dsimp only at hmem
    repeat' split at hmem
    all_goals simp_all [subprocessRun]

/-- C3 witness: the invocations of a concrete process_video run and of a
concrete stitch_videos run both carry no timeout. -/
theorem C3_witness :
    (subprocessRun (buildCmd "in2.mp4" "out2.mp4" 0 none [] [] false)).timeout = none ∧
    (subprocessRun ["ffmpeg", "-y", "-f", "concat", "-safe", "0", "-i", "m.txt",
        "-c", "copy", "x.mp4"]).timeout = none :=
  ⟨(C3_no_timeout (subprocessRun (buildCmd "in2.mp4" "out2.mp4" 0 none [] [] false))
      envOk 1 1 "in2.mp4" [] 0 none "out2.mp4" senvOk [] "x.mp4" "m.txt").1 (by decide),
   (C3_no_timeout (subprocessRun ["ffmpeg", "-y", "-f", "concat", "-safe", "0", "-i",
        "m.txt", "-c", "copy", "x.mp4"])
      envOk 1 1 "in2.mp4" [] 0 none "out2.mp4" senvOk ["a.mp4"] "x.mp4" "m.txt").2
     (by decide)⟩

/-- C5 counterexample: a missing input and an encode failure both return
the very same failure value (None); the error kinds are not
distinguishable by the caller. -/
theorem C5_counterexample :
    (process_video envMissing 1 1 "in.mp4" [] 0 none "out.mp4").1 = PVOutcome.fail ∧
    (process_video envBadExit 1 1 "in.mp4" [] 0 none "out.mp4").1 = PVOutcome.fail :=
  ⟨by decide, by decide⟩

/-- C5 amended: on a nonexistent input path process_video returns None (the
same generic failure value used for every error) without performing any
external invocation. -/
theorem C5_input_not_found (env : Env) (n₁ n₂ : ℕ) (ip : String) (acts : List Action)
    (cs : ℚ) (cd : Option ℚ) (op : String) (h : env.inputExists = false) :
    process_video env n₁ n₂ ip acts cs cd op = (PVOutcome.fail, []) := by
  unfold process_video
  rw [if_pos h]

/-- C5 witness: concrete run with a missing input file. -/
theorem C5_witness :
    process_video envMissing 1 1 "in.mp4" [] 0 none "out.mp4" = (PVOutcome.fail, []) :=
  C5_input_not_found envMissing 1 1 "in.mp4" [] 0 none "out.mp4" rfl

/-- C6 counterexample: when the concat invocation raises an exception, the
manifest file was created but is not removed before returning None. -/
theorem C6_counterexample :
    (stitch_videos senvRaise ["a.mp4"] "out.mp4" "c.txt").manifestCreated = true ∧
    (stitch_videos senvRaise ["a.mp4"] "out.mp4" "c.txt").manifestRemoved = false ∧
    (stitch_videos senvRaise ["a.mp4"] "out.mp4" "c.txt").result = none :=
  ⟨by decide, by decide, by decide⟩

/-- C6 amended: for a nonempty clip list, whenever subprocess.run returns
normally (zero or non-zero exit code), stitch_videos creates the manifest
and removes it before returning; only the exception path skips removal. -/
theorem C6_manifest_removed (senv : StitchEnv) (clips : List String) (sop smp : String)
    (hne : clips ≠ []) (hra : senv.execRaises = false) :
    (stitch_videos senv clips sop smp).manifestCreated = true ∧
    (stitch_videos senv clips sop smp).manifestRemoved = true := by
  unfold stitch_videos
  rw [if_neg hne]
  dsimp only
  rw [if_neg (by simp [hra])]
  split <;> exact ⟨rfl, rfl⟩

/-- C6 witness: a failing (exit code 1) concat still removes the
manifest. -/
theorem C6_witness :
    (stitch_videos senvBadExit ["a.mp4"] "out.mp4" "c.txt").manifestCreated = true ∧
    (stitch_videos senvBadExit ["a.mp4"] "out.mp4" "c.txt").manifestRemoved = true :=
  C6_manifest_removed senvBadExit ["a.mp4"] "out.mp4" "c.txt" (by decide) rfl

/-- C7: the manifest stitch_videos writes lists exactly the clips whose
resolved path exists, in their original order (missing clips are silently
skipped), and when the external concat succeeds the call still produces
the output path. -/
theorem C7_skip_missing (senv : StitchEnv) (clips : List String) (sop smp : String) :
    (stitch_videos senv clips sop smp).manifestLines =
      ((clips.map resolveClip).filter (fun p => decide (p ∈ senv.existingPaths))).map
        manifestLine ∧
    (clips ≠ [] → senv.execRaises = false → senv.execReturncode = 0 →
      (stitch_videos senv clips sop smp).result = some sop) := by
  constructor
  · unfold stitch_videos
    split
    · rename_i h
      subst h
      simp
    · dsimp only
      split
      · exact buildManifest_eq senv.existingPaths clips
      · split
        · exact buildManifest_eq senv.existingPaths clips
        · exact buildManifest_eq senv.existingPaths clips
  · intro hne hra hrc
    unfold stitch_videos
    rw [if_neg hne]
    dsimp only
    rw [if_neg (by simp [hra]), if_neg (by simp [hrc])]

/-- C7 witness: of three clips the middle one is missing; the manifest has
exactly the two resolvable clips in order and the stitch returns the
output path. -/
theorem C7_witness :
    (stitch_videos senvOk ["a.mp4", "b.mp4", "c.mp4"] "out.mp4" "c.txt").manifestLines =
      ["file \x27a.mp4\x27\n", "file \x27c.mp4\x27\n"] ∧
    (stitch_videos senvOk ["a.mp4", "b.mp4", "c.mp4"] "out.mp4" "c.txt").result =
      some "out.mp4" := by
  constructor
  · rw [(C7_skip_missing senvOk ["a.mp4", "b.mp4", "c.mp4"] "out.mp4" "c.txt").1]
    decide
  · exact (C7_skip_missing senvOk ["a.mp4", "b.mp4", "c.mp4"] "out.mp4" "c.txt").2
      (by decide) rfl rfl

example : decRepr 1 = "1.0" := by decide
example : decRepr half = "0.5" := by decide
example : decRepr (mkRat 6 5) = "1.2" := by decide
example : decRepr 0 = "0.0" := by decide
example : decRepr (mkRat (-5) 4) = "-1.25" := by decide
example : atempoChain 3 3 5 = some [2, 2, mkRat 5 4] := by decide
example : atempoChain 3 3 (mkRat 1 8) = some [half, half, half] := by decide

end VideoEngine
